import Mathlib

/-!
Verification of the Lingogo spaced-repetition review engine.

The data model (`Phrase`, `PracticeReviewLogEntry`, `PracticeReviewAction`)
is embedded from `src/types.ts`.  The leech-resolution actions come from
`LeechModal.tsx` (`handleLeechAction`), the leech-crossing check from
`App.tsx` (`handlePracticeUpdateMastery`), and the review-log append and
log-entry construction from the `useDataOperations` hook
(`appendPracticeReviewLog`, `updatePhraseMasteryAndCache`).  The SRS core
(`srsService`: `updatePhraseMastery`, `isLeech`, the interval table and
`selectNextPhrase`) is not part of the provided sources — only its callers
are — so those functions are modelled from the specification, as flagged
on each definition.

Timestamps are JavaScript epoch milliseconds, embedded as `Int`; counters
are `Nat`.
-/

namespace Lingogo

/-- Review actions, from `src/types.ts` (`PracticeReviewAction`):
`'know' | 'forgot' | 'dont_know'`. -/
inductive PracticeReviewAction where
  | know
  | forgot
  | dont_know
  deriving DecidableEq, Repr

/-- The bilingual text of a phrase, from the `text` field of `Phrase` in
`src/types.ts`. -/
structure PhraseText where
  native : String
  learning : String
  deriving DecidableEq, Repr

/-- A learning phrase, embedded from the `Phrase` interface in
`src/types.ts` (scheduling-relevant fields). -/
structure Phrase where
  id : String
  text : PhraseText
  category : String
  masteryLevel : Nat
  lastReviewedAt : Option Int
  nextReviewAt : Int
  knowCount : Nat
  knowStreak : Nat
  isMastered : Bool
  lapses : Nat
  deriving DecidableEq, Repr

/-- Modelled from the spec: the Interval Policy step table of §4.3
(`srsService` is absent from the sources).  Tier 0 → 10 minutes,
1 → 1 hour, 2 → 8 hours, 3 → 1 day, 4 → 3 days, 5 → 7 days,
6 → 14 days, 7 and above (MAX_TIER) → 30 days; in milliseconds. -/
def srsIntervalMs : Nat → Int
  | 0 => 10 * 60 * 1000
  | 1 => 60 * 60 * 1000
  | 2 => 8 * 60 * 60 * 1000
  | 3 => 24 * 60 * 60 * 1000
  | 4 => 3 * 24 * 60 * 60 * 1000
  | 5 => 7 * 24 * 60 * 60 * 1000
  | 6 => 14 * 24 * 60 * 60 * 1000
  | _ => 30 * 24 * 60 * 60 * 1000

/-- Modelled from the spec: the Leech Detector of §4.2
(`srsService.isLeech` is absent from the sources).  Pure predicate:
`lapses >= LEECH_THRESHOLD` with design value 4. -/
def isLeech (p : Phrase) : Bool :=
  decide (4 ≤ p.lapses)

/-- Modelled from the spec: the Mastery State Machine of §4.1
(`srsService.updatePhraseMastery` is absent from the sources).
`know` bumps `knowCount` and `knowStreak` and promotes one tier (capped at
MAX_TIER 7) on every second consecutive success; `forgot` and `dont_know`
reset the streak, add a lapse, and halve `masteryLevel` rounding down.
All actions stamp `lastReviewedAt := now`, schedule
`nextReviewAt := now + interval(new tier)`, and recompute `isMastered` as
`masteryLevel >= MASTERY_TIER (5)` AND the group-enabled predicate on the
phrase's category. -/
def updatePhraseMastery (p : Phrase) (action : PracticeReviewAction)
    (groupEnabled : String → Bool) (now : Int) : Phrase :=
  match action with
  | .know =>
      let newStreak := p.knowStreak + 1
      let newLevel :=
        if newStreak % 2 = 0 then min (p.masteryLevel + 1) 7 else p.masteryLevel
      { p with
        knowCount := p.knowCount + 1
        knowStreak := newStreak
        masteryLevel := newLevel
        lastReviewedAt := some now
        nextReviewAt := now + srsIntervalMs newLevel
        isMastered := decide (5 ≤ newLevel) && groupEnabled p.category }
  | .forgot =>
      let newLevel := p.masteryLevel / 2
      { p with
        knowStreak := 0
        lapses := p.lapses + 1
        masteryLevel := newLevel
        lastReviewedAt := some now
        nextReviewAt := now + srsIntervalMs newLevel
        isMastered := decide (5 ≤ newLevel) && groupEnabled p.category }
  | .dont_know =>
      let newLevel := p.masteryLevel / 2
      { p with
        knowStreak := 0
        lapses := p.lapses + 1
        masteryLevel := newLevel
        lastReviewedAt := some now
        nextReviewAt := now + srsIntervalMs newLevel
        isMastered := decide (5 ≤ newLevel) && groupEnabled p.category }

/-- The three leech-resolution actions of `handleLeechAction` in
`LeechModal.tsx`; the source calls `retryShort` simply `'continue'`
(a reserved word here). -/
inductive LeechAction where
  | retryShort
  | resetProgress
  | postpone
  deriving DecidableEq, Repr

/-- Embedded from `handleLeechAction` in `src/src/components/LeechModal.tsx`:
`'continue'` reschedules 10 minutes out, `'reset'` zeroes every progress
counter, clears `lastReviewedAt` and makes the phrase due now, `'postpone'`
reschedules 24 hours out. -/
def handleLeechAction (p : Phrase) (action : LeechAction) (now : Int) : Phrase :=
  match action with
  | .retryShort => { p with nextReviewAt := now + 10 * 60 * 1000 }
  | .resetProgress =>
      { p with
        masteryLevel := 0
        lastReviewedAt := none
        nextReviewAt := now
        knowCount := 0
        knowStreak := 0
        lapses := 0
        isMastered := false }
  | .postpone => { p with nextReviewAt := now + 24 * 60 * 60 * 1000 }

/-- Embedded from `handlePracticeUpdateMastery` in `src/src/App.tsx`: for a
failure action the handler computes `wasLeech` on the original phrase and
`isNowLeech` on the SRS-updated phrase and reports a leech crossing exactly
when `!wasLeech && isNowLeech`. -/
def crossedIntoLeech (p : Phrase) (action : PracticeReviewAction)
    (groupEnabled : String → Bool) (now : Int) : Bool :=
  (action = .forgot || action = .dont_know)
    && !(isLeech p)
    && isLeech (updatePhraseMastery p action groupEnabled now)

/-- Modelled from the spec: §4.4 step 1, an item is due when
`now >= nextReviewAt`. -/
def isDue (p : Phrase) (now : Int) : Bool :=
  decide (p.nextReviewAt ≤ now)

/-- Modelled from the spec: §3, an item is new exactly when
`lastReviewedAt` is absent. -/
def isNewPhrase (p : Phrase) : Bool :=
  p.lastReviewedAt.isNone

/-- Modelled from the spec: the ranking order of §4.4 step 2 — ascending
`nextReviewAt`, tie-break ascending `knowStreak`, second tie-break by id. -/
def rankLE (a b : Phrase) : Bool :=
  if a.nextReviewAt ≠ b.nextReviewAt then decide (a.nextReviewAt ≤ b.nextReviewAt)
  else if a.knowStreak ≠ b.knowStreak then decide (a.knowStreak ≤ b.knowStreak)
  else decide (a.id < b.id) || (a.id == b.id)

/-- Insertion step of the ranking sort. -/
def insertRanked (p : Phrase) : List Phrase → List Phrase
  | [] => [p]
  | q :: qs => if rankLE p q then p :: q :: qs else q :: insertRanked p qs

/-- Insertion sort by `rankLE`. -/
def sortRanked : List Phrase → List Phrase
  | [] => []
  | p :: ps => insertRanked p (sortRanked ps)

/-- Modelled from the spec: the eligible items of §4.4 — due items plus new
items. -/
def eligiblePhrases (pool : List Phrase) (now : Int) : List Phrase :=
  pool.filter (fun p => isDue p now || isNewPhrase p)

/-- Modelled from the spec: the ranked candidate order of §4.4 — due items
ranked most-overdue first (steps 1–2), then the new not-yet-due items in
pool order (step 3). -/
def candidatePhrases (pool : List Phrase) (now : Int) : List Phrase :=
  sortRanked (pool.filter (fun p => isDue p now))
    ++ pool.filter (fun p => !isDue p now && isNewPhrase p)

/-- Modelled from the spec: the Candidate Selector of §4.4
(`srsService.selectNextPhrase` is absent from the sources).  Returns the
top-ranked candidate, or none when nothing is due or new (step 4), skipping
to the next-ranked candidate when the top candidate was the last shown item
and an alternative exists (step 5). -/
def selectNextPhrase (pool : List Phrase) (lastShownId : Option String)
    (now : Int) : Option Phrase :=
  match candidatePhrases pool now with
  | [] => none
  | c :: rest =>
      if lastShownId = some c.id ∧ rest ≠ [] then rest.head? else some c

/-- One record of the practice review log, embedded from
`PracticeReviewLogEntry` in `src/types.ts`. -/
structure PracticeReviewLogEntry where
  id : String
  timestamp : Int
  phraseId : String
  categoryId : String
  action : PracticeReviewAction
  wasCorrect : Bool
  wasNew : Bool
  previousMasteryLevel : Nat
  newMasteryLevel : Nat
  previousKnowStreak : Nat
  newKnowStreak : Nat
  previousLapses : Nat
  newLapses : Nat
  previousNextReviewAt : Int
  nextReviewAt : Int
  previousIsMastered : Bool
  newIsMastered : Bool
  previousKnowCount : Nat
  newKnowCount : Nat
  intervalMs : Int
  languageLearning : String
  languageNative : String
  isLeechAfter : Bool
  deriving DecidableEq, Repr

/-- The review-log capacity, `PRACTICE_REVIEW_LOG_LIMIT = 5000` in the
`useDataOperations` hook. -/
def PRACTICE_REVIEW_LOG_LIMIT : Nat := 5000

/-- Embedded from `appendPracticeReviewLog` in the `useDataOperations`
hook: append the entry, then keep only the most recent
`PRACTICE_REVIEW_LOG_LIMIT` entries (`next.slice(next.length - LIMIT)`). -/
def appendPracticeReviewLog (log : List PracticeReviewLogEntry)
    (entry : PracticeReviewLogEntry) : List PracticeReviewLogEntry :=
  let next := log ++ [entry]
  if PRACTICE_REVIEW_LOG_LIMIT < next.length then
    next.drop (next.length - PRACTICE_REVIEW_LOG_LIMIT)
  else next

/-- Embedded from the log-entry construction in
`updatePhraseMasteryAndCache` (the `useDataOperations` hook): the entry
snapshots the phrase before and after the SRS update.  The entry id (a
random UUID in the source), the log timestamp and the language profile are
taken as arguments. -/
def mkPracticeReviewLogEntry (phrase updatedPhrase : Phrase)
    (action : PracticeReviewAction) (logTimestamp : Int)
    (entryId langLearning langNative : String) : PracticeReviewLogEntry :=
  { id := entryId
    timestamp := logTimestamp
    phraseId := phrase.id
    categoryId := phrase.category
    action := action
    wasCorrect := action == .know
    wasNew := phrase.lastReviewedAt.isNone
    previousMasteryLevel := phrase.masteryLevel
    newMasteryLevel := updatedPhrase.masteryLevel
    previousKnowStreak := phrase.knowStreak
    newKnowStreak := updatedPhrase.knowStreak
    previousLapses := phrase.lapses
    newLapses := updatedPhrase.lapses
    previousNextReviewAt := phrase.nextReviewAt
    nextReviewAt := updatedPhrase.nextReviewAt
    previousIsMastered := phrase.isMastered
    newIsMastered := updatedPhrase.isMastered
    previousKnowCount := phrase.knowCount
    newKnowCount := updatedPhrase.knowCount
    intervalMs := max (updatedPhrase.nextReviewAt - logTimestamp) 0
    languageLearning := langLearning
    languageNative := langNative
    isLeechAfter := isLeech updatedPhrase }

/-- The error taxonomy of §7: contract violations by the caller. -/
inductive SrsError where
  | invalidAction
  | invalidItemState
  deriving DecidableEq, Repr

/-- Modelled from the spec: recognition of the action strings of §6
(`action ∈ \x7bknow, forgot, dont_know\x7d`). -/
def parseAction (s : String) : Option PracticeReviewAction :=
  if s = "know" then some .know
  else if s = "forgot" then some .forgot
  else if s = "dont_know" then some .dont_know
  else none

/-- Modelled from the spec: the checkable item-record invariants of §3 —
`knowStreak <= knowCount`, and `lastReviewedAt` absent exactly when
`knowCount == 0 && lapses == 0`. -/
def validItemState (p : Phrase) : Bool :=
  decide (p.knowStreak ≤ p.knowCount)
    && (p.lastReviewedAt.isNone == (p.knowCount == 0 && p.lapses == 0))

/-- Modelled from the spec: the validating review entry point of §7
(`srsService` is absent from the sources).  An unrecognised action value is
rejected with `InvalidAction`; a valid action on an item record violating
the §3 invariants is rejected with `InvalidItemState`; otherwise the
Mastery State Machine runs and the leech crossing is reported. -/
def applyReviewChecked (p : Phrase) (rawAction : String)
    (groupEnabled : String → Bool) (now : Int) :
    Except SrsError (Phrase × Bool) :=
  match parseAction rawAction with
  | none => .error .invalidAction
  | some a =>
      if validItemState p then
        .ok (updatePhraseMastery p a groupEnabled now,
             crossedIntoLeech p a groupEnabled now)
      else .error .invalidItemState

/-- Iterated failure reviews: `applyFailures a g now n p` applies the
Mastery State Machine `n` times with the failure action `a`. -/
def applyFailures (a : PracticeReviewAction) (g : String → Bool) (now : Int) :
    Nat → Phrase → Phrase
  | 0, p => p
  | n + 1, p => applyFailures a g now n (updatePhraseMastery p a g now)

/-- A concrete well-formed phrase used to instantiate theorems. -/
def samplePhrase : Phrase :=
  { id := "p1"
    text := { native := "hello", learning := "hola" }
    category := "general"
    masteryLevel := 3
    lastReviewedAt := some 100
    nextReviewAt := 200
    knowCount := 5
    knowStreak := 2
    isMastered := false
    lapses := 3 }

/-- C1: for every item and every time `now`, the `forgot` action zeroes
`knowStreak`, adds exactly one lapse, halves `masteryLevel` rounding down,
stamps `lastReviewedAt := now` and schedules
`nextReviewAt = now + interval(new tier)`; in particular from
`masteryLevel = 3` it lands on tier 1 with `nextReviewAt = now + 1 hour`. -/
theorem forgot_halves_and_reschedules (p : Phrase) (g : String → Bool) (now : Int) :
    (updatePhraseMastery p .forgot g now).knowStreak = 0 ∧
    (updatePhraseMastery p .forgot g now).lapses = p.lapses + 1 ∧
    (updatePhraseMastery p .forgot g now).masteryLevel = p.masteryLevel / 2 ∧
    (updatePhraseMastery p .forgot g now).lastReviewedAt = some now ∧
    (updatePhraseMastery p .forgot g now).nextReviewAt
      = now + srsIntervalMs (p.masteryLevel / 2) ∧
    (p.masteryLevel = 3 →
      (updatePhraseMastery p .forgot g now).masteryLevel = 1 ∧
      (updatePhraseMastery p .forgot g now).nextReviewAt = now + 3600000) := by
  refine ⟨rfl, rfl, rfl, rfl, rfl, fun h3 => ?_⟩
  have hm : (updatePhraseMastery p .forgot g now).masteryLevel = p.masteryLevel / 2 := rfl
  have hn : (updatePhraseMastery p .forgot g now).nextReviewAt
      = now + srsIntervalMs (p.masteryLevel / 2) := rfl
  rw [hm, hn, h3]
  norm_num [srsIntervalMs]

/-- Witness for C1 at a phrase of mastery level 3 reviewed at time 1000. -/
theorem forgot_halves_and_reschedules_witness :
    (updatePhraseMastery samplePhrase .forgot (fun _ => true) 1000).masteryLevel = 1 ∧
    (updatePhraseMastery samplePhrase .forgot (fun _ => true) 1000).nextReviewAt
      = 1000 + 3600000 :=
  (forgot_halves_and_reschedules samplePhrase (fun _ => true) 1000).2.2.2.2.2 rfl

/-- C2: the `reset` leech action zeroes every progress counter, clears
`lastReviewedAt`, makes the phrase due now, clears `isMastered`, and the
result is no longer a leech. -/
theorem resetProgress_clears_all (p : Phrase) (now : Int) :
    (handleLeechAction p .resetProgress now).masteryLevel = 0 ∧
    (handleLeechAction p .resetProgress now).knowStreak = 0 ∧
    (handleLeechAction p .resetProgress now).knowCount = 0 ∧
    (handleLeechAction p .resetProgress now).lapses = 0 ∧
    (handleLeechAction p .resetProgress now).isMastered = false ∧
    (handleLeechAction p .resetProgress now).lastReviewedAt = none ∧
    (handleLeechAction p .resetProgress now).nextReviewAt = now ∧
    isLeech (handleLeechAction p .resetProgress now) = false :=
  ⟨rfl, rfl, rfl, rfl, rfl, rfl, rfl, rfl⟩

/-- C3: `continue` (retry short) moves `nextReviewAt` to `now + 10 min` and
`postpone` moves it to `now + 24 h`; both leave every other field of the
phrase untouched. -/
theorem leech_retry_postpone_frame (p : Phrase) (now : Int) :
    ((handleLeechAction p .retryShort now).nextReviewAt = now + 600000 ∧
      (handleLeechAction p .retryShort now).masteryLevel = p.masteryLevel ∧
      (handleLeechAction p .retryShort now).knowStreak = p.knowStreak ∧
      (handleLeechAction p .retryShort now).knowCount = p.knowCount ∧
      (handleLeechAction p .retryShort now).lapses = p.lapses ∧
      (handleLeechAction p .retryShort now).lastReviewedAt = p.lastReviewedAt ∧
      (handleLeechAction p .retryShort now).isMastered = p.isMastered ∧
      (handleLeechAction p .retryShort now).id = p.id ∧
      (handleLeechAction p .retryShort now).text = p.text ∧
      (handleLeechAction p .retryShort now).category = p.category) ∧
    ((handleLeechAction p .postpone now).nextReviewAt = now + 86400000 ∧
      (handleLeechAction p .postpone now).masteryLevel = p.masteryLevel ∧
      (handleLeechAction p .postpone now).knowStreak = p.knowStreak ∧
      (handleLeechAction p .postpone now).knowCount = p.knowCount ∧
      (handleLeechAction p .postpone now).lapses = p.lapses ∧
      (handleLeechAction p .postpone now).lastReviewedAt = p.lastReviewedAt ∧
      (handleLeechAction p .postpone now).isMastered = p.isMastered ∧
      (handleLeechAction p .postpone now).id = p.id ∧
      (handleLeechAction p .postpone now).text = p.text ∧
      (handleLeechAction p .postpone now).category = p.category) :=
  ⟨⟨rfl, rfl, rfl, rfl, rfl, rfl, rfl, rfl, rfl, rfl⟩,
   ⟨rfl, rfl, rfl, rfl, rfl, rfl, rfl, rfl, rfl, rfl⟩⟩

/-- C4: for a failure action, the leech crossing is reported exactly when
the item was not a leech before and is one after; an item already flagged
never reports a crossing again. -/
theorem crossedIntoLeech_edge_triggered (p : Phrase) (a : PracticeReviewAction)
    (g : String → Bool) (now : Int) (ha : a = .forgot ∨ a = .dont_know) :
    (crossedIntoLeech p a g now = true ↔
      isLeech p = false ∧ isLeech (updatePhraseMastery p a g now) = true) ∧
    (isLeech p = true → crossedIntoLeech p a g now = false) ∧
    (isLeech p = true → isLeech (updatePhraseMastery p a g now) = true) := by
  have hguard : (decide (a = .forgot) || decide (a = .dont_know)) = true := by
    rcases ha with h | h <;> subst h <;> rfl
  have hlap : (updatePhraseMastery p a g now).lapses = p.lapses + 1 := by
    rcases ha with h | h <;> subst h <;> rfl
  refine ⟨?_, fun hl => by simp [crossedIntoLeech, hl], fun hl => ?_⟩
  · simp [crossedIntoLeech, hguard, Bool.and_eq_true, Bool.not_eq_true']
  · rw [isLeech] at hl ⊢
    rw [hlap]
    simp only [decide_eq_true_eq] at hl ⊢
    omega

/-- Witness for C4: a phrase with 3 lapses crosses into leech on a
`dont_know` failure. -/
theorem crossedIntoLeech_edge_triggered_witness :
    crossedIntoLeech samplePhrase .dont_know (fun _ => true) 7 = true :=
  ((crossedIntoLeech_edge_triggered samplePhrase .dont_know (fun _ => true) 7
      (Or.inr rfl)).1).mpr ⟨rfl, rfl⟩

/-- Each iterated `forgot` review adds exactly one lapse. -/
theorem lapses_applyFailures_forgot (g : String → Bool) (now : Int)
    (n : Nat) (p : Phrase) :
    (applyFailures .forgot g now n p).lapses = p.lapses + n := by
  induction n generalizing p with
  | zero => rfl
  | succ n ih =>
      show (applyFailures .forgot g now n
        (updatePhraseMastery p .forgot g now)).lapses = p.lapses + (n + 1)
      rw [ih]
      show p.lapses + 1 + n = p.lapses + (n + 1)
      omega

/-- Each iterated `dont_know` review adds exactly one lapse. -/
theorem lapses_applyFailures_dont_know (g : String → Bool) (now : Int)
    (n : Nat) (p : Phrase) :
    (applyFailures .dont_know g now n p).lapses = p.lapses + n := by
  induction n generalizing p with
  | zero => rfl
  | succ n ih =>
      show (applyFailures .dont_know g now n
        (updatePhraseMastery p .dont_know g now)).lapses = p.lapses + (n + 1)
      rw [ih]
      show p.lapses + 1 + n = p.lapses + (n + 1)
      omega

/-- C5 counterexample: no item ever becomes a leech after strictly fewer
`dont_know` actions than `forgot` actions — the two failure actions move the
leech state identically, because both add exactly one lapse and the leech
predicate reads only `lapses`. -/
theorem no_dont_know_double_weight :
    ¬ ∃ (p : Phrase) (g : String → Bool) (now : Int) (n : Nat),
      isLeech (applyFailures .dont_know g now n p) = true ∧
      isLeech (applyFailures .forgot g now n p) = false := by
  rintro ⟨p, g, now, n, h1, h2⟩
  rw [isLeech, lapses_applyFailures_dont_know] at h1
  rw [isLeech, lapses_applyFailures_forgot] at h2
  rw [h1] at h2
  exact Bool.noConfusion h2

/-- C5 (amended): `isLeech` holds exactly when `lapses >= 4`; both `forgot`
and `dont_know` add exactly one lapse; and the leech flag after `n`
`dont_know` reviews always equals the flag after `n` `forgot` reviews, so
`dont_know` carries no extra weight toward the leech threshold. -/
theorem leech_threshold_and_equal_weight :
    (∀ p : Phrase, isLeech p = true ↔ 4 ≤ p.lapses) ∧
    (∀ (p : Phrase) (g : String → Bool) (now : Int),
      (updatePhraseMastery p .forgot g now).lapses = p.lapses + 1 ∧
      (updatePhraseMastery p .dont_know g now).lapses = p.lapses + 1) ∧
    (∀ (p : Phrase) (g : String → Bool) (now : Int) (n : Nat),
      isLeech (applyFailures .dont_know g now n p) =
        isLeech (applyFailures .forgot g now n p)) := by
  refine ⟨fun p => ?_, fun p g now => ⟨rfl, rfl⟩, fun p g now n => ?_⟩
  · simp [isLeech]
  · rw [isLeech, isLeech, lapses_applyFailures_dont_know,
      lapses_applyFailures_forgot]

/-- C7: each engine operation is a pure function of its explicit arguments
(the clock is one of them): identical inputs — for the group predicate,
pointwise identical — give identical outputs. -/
theorem engine_deterministic (p1 p2 : Phrase) (a1 a2 : PracticeReviewAction)
    (g1 g2 : String → Bool) (n1 n2 : Int) (pool1 pool2 : List Phrase)
    (last1 last2 : Option String) (m1 m2 : Nat)
    (hp : p1 = p2) (ha : a1 = a2) (hg : ∀ s, g1 s = g2 s) (hn : n1 = n2)
    (hpool : pool1 = pool2) (hlast : last1 = last2) (hm : m1 = m2) :
    updatePhraseMastery p1 a1 g1 n1 = updatePhraseMastery p2 a2 g2 n2 ∧
    isLeech p1 = isLeech p2 ∧
    srsIntervalMs m1 = srsIntervalMs m2 ∧
    selectNextPhrase pool1 last1 n1 = selectNextPhrase pool2 last2 n2 := by
  have hgf : g1 = g2 := funext hg
  subst hp ha hgf hn hpool hlast hm
  exact ⟨rfl, rfl, rfl, rfl⟩

/-- Witness for C7 at concrete identical inputs. -/
theorem engine_deterministic_witness :
    updatePhraseMastery samplePhrase .know (fun _ => true) 5
      = updatePhraseMastery samplePhrase .know (fun _ => true) 5 ∧
    isLeech samplePhrase = isLeech samplePhrase ∧
    srsIntervalMs 2 = srsIntervalMs 2 ∧
    selectNextPhrase [samplePhrase] none 5 = selectNextPhrase [samplePhrase] none 5 :=
  engine_deterministic samplePhrase samplePhrase .know .know
    (fun _ => true) (fun _ => true) 5 5 [samplePhrase] [samplePhrase]
    none none 2 2 rfl rfl (fun _ => rfl) rfl rfl rfl rfl

/-- A concrete log entry used to instantiate theorems. -/
def sampleEntry : PracticeReviewLogEntry :=
  mkPracticeReviewLogEntry samplePhrase
    (updatePhraseMastery samplePhrase .know (fun _ => true) 1000)
    .know 1000 "entry1" "es" "en"

/-- C8: appending to a log currently within capacity puts the new entry
last, never exceeds 5000 entries, keeps exactly the most recent entries
(dropping the oldest when full), and the retained entries are an untouched
suffix of the appended log. -/
theorem reviewLog_bounded_fifo (log : List PracticeReviewLogEntry)
    (e : PracticeReviewLogEntry) (h : log.length ≤ 5000) :
    (appendPracticeReviewLog log e).getLast? = some e ∧
    (appendPracticeReviewLog log e).length ≤ 5000 ∧
    appendPracticeReviewLog log e = (log ++ [e]).drop (log.length + 1 - 5000) ∧
    (appendPracticeReviewLog log e) <:+ (log ++ [e]) := by
  have hlen : (log ++ [e]).length = log.length + 1 := by
    simp
  unfold appendPracticeReviewLog PRACTICE_REVIEW_LOG_LIMIT
  by_cases hlt : 5000 < (log ++ [e]).length
  · rw [if_pos hlt]
    have h5 : log.length = 5000 := by omega
    have hd1 : (log ++ [e]).length - 5000 = 1 := by omega
    rw [hd1]
    refine ⟨?_, ?_, ?_, List.drop_suffix 1 (log ++ [e])⟩
    · rw [List.drop_append_of_le_length (by omega), List.getLast?_concat]
    · rw [List.length_drop, hlen]
      omega
    · rw [h5]
  · rw [if_neg hlt]
    have hd0 : log.length + 1 - 5000 = 0 := by omega
    refine ⟨List.getLast?_concat log, ?_, ?_, List.suffix_refl _⟩
    · rw [hlen]
      omega
    · rw [hd0, List.drop_zero]

/-- Witness for C8: appending to a one-entry log. -/
theorem reviewLog_bounded_fifo_witness :
    [sampleEntry].length ≤ 5000 ∧
    ((appendPracticeReviewLog [sampleEntry] sampleEntry).getLast? = some sampleEntry ∧
      (appendPracticeReviewLog [sampleEntry] sampleEntry).length ≤ 5000 ∧
      appendPracticeReviewLog [sampleEntry] sampleEntry
        = ([sampleEntry] ++ [sampleEntry]).drop ([sampleEntry].length + 1 - 5000) ∧
      (appendPracticeReviewLog [sampleEntry] sampleEntry)
        <:+ ([sampleEntry] ++ [sampleEntry])) :=
  ⟨by simp, reviewLog_bounded_fifo [sampleEntry] sampleEntry (by simp)⟩

/-- C9: an unrecognised action string is rejected with `InvalidAction`; a
recognised action on an item record violating the §3 invariants is rejected
with `InvalidItemState`, so no mutated item is ever produced from either. -/
theorem invalid_input_rejected (p : Phrase) (s : String)
    (g : String → Bool) (now : Int) :
    (s ≠ "know" → s ≠ "forgot" → s ≠ "dont_know" →
      applyReviewChecked p s g now = .error .invalidAction) ∧
    (∀ a, parseAction s = some a → validItemState p = false →
      applyReviewChecked p s g now = .error .invalidItemState) := by
  constructor
  · intro h1 h2 h3
    unfold applyReviewChecked parseAction
    rw [if_neg h1, if_neg h2, if_neg h3]
  · intro a hpa hv
    unfold applyReviewChecked
    rw [hpa, hv]
    rfl

/-- An item record violating the invariant `knowStreak <= knowCount`. -/
def corruptPhrase : Phrase :=
  { samplePhrase with knowStreak := 9, knowCount := 2 }

/-- Witness for C9: the action string misspelt as well as a corrupt item
record are both rejected. -/
theorem invalid_input_rejected_witness :
    applyReviewChecked samplePhrase "kno" (fun _ => true) 0
      = .error .invalidAction ∧
    applyReviewChecked corruptPhrase "know" (fun _ => true) 0
      = .error .invalidItemState :=
  ⟨(invalid_input_rejected samplePhrase "kno" (fun _ => true) 0).1
      (by decide) (by decide) (by decide),
   (invalid_input_rejected corruptPhrase "know" (fun _ => true) 0).2
      .know rfl (by decide)⟩

/-- C10: the log entry built for a review of `p` with action `a` at time
`t` snapshots the transition faithfully: the `previous` fields are the
fields of `p`, the `new` fields are the fields of the updated phrase,
`wasCorrect` holds exactly for `know`, `wasNew` exactly for a never-reviewed
phrase, and `intervalMs` is the clamped, never negative, time to the next
review. -/
theorem logEntry_faithful (p : Phrase) (a : PracticeReviewAction)
    (g : String → Bool) (t : Int) (entryId ll ln : String) :
    let u := updatePhraseMastery p a g t
    let e := mkPracticeReviewLogEntry p u a t entryId ll ln
    e.phraseId = p.id ∧ e.categoryId = p.category ∧ e.timestamp = t ∧
    e.action = a ∧
    e.previousMasteryLevel = p.masteryLevel ∧
    e.newMasteryLevel = u.masteryLevel ∧
    e.previousKnowStreak = p.knowStreak ∧
    e.newKnowStreak = u.knowStreak ∧
    e.previousLapses = p.lapses ∧
    e.newLapses = u.lapses ∧
    e.previousNextReviewAt = p.nextReviewAt ∧
    e.nextReviewAt = u.nextReviewAt ∧
    e.previousIsMastered = p.isMastered ∧
    e.newIsMastered = u.isMastered ∧
    e.previousKnowCount = p.knowCount ∧
    e.newKnowCount = u.knowCount ∧
    (e.wasCorrect = true ↔ a = .know) ∧
    (e.wasNew = true ↔ p.lastReviewedAt = none) ∧
    e.intervalMs = max (u.nextReviewAt - t) 0 ∧
    0 ≤ e.intervalMs ∧
    e.isLeechAfter = isLeech u := by
  refine ⟨rfl, rfl, rfl, rfl, rfl, rfl, rfl, rfl, rfl, rfl, rfl, rfl, rfl,
    rfl, rfl, rfl, ?_, ?_, rfl, ?_, rfl⟩
  · show (a == .know) = true ↔ a = .know
    exact beq_iff_eq
  · show p.lastReviewedAt.isNone = true ↔ p.lastReviewedAt = none
    exact Option.isNone_iff_eq_none
  · exact le_max_right _ 0

/-- Inserting into the ranked list is a permutation of consing. -/
theorem perm_insertRanked (p : Phrase) (l : List Phrase) :
    (insertRanked p l).Perm (p :: l) := by
  induction l with
  | nil => exact List.Perm.refl _
  | cons q qs ih =>
      unfold insertRanked
      by_cases h : rankLE p q = true
      · rw [if_pos h]
      · rw [if_neg h]
        exact (ih.cons q).trans (List.Perm.swap p q qs)

/-- The ranking sort permutes its input. -/
theorem perm_sortRanked (l : List Phrase) : (sortRanked l).Perm l := by
  induction l with
  | nil => exact List.Perm.refl _
  | cons p ps ih =>
      exact (perm_insertRanked p (sortRanked ps)).trans (ih.cons p)

/-- The candidate order is a permutation of the eligible items. -/
theorem perm_candidatePhrases (pool : List Phrase) (now : Int) :
    (candidatePhrases pool now).Perm (eligiblePhrases pool now) := by
  have h1 : (candidatePhrases pool now).Perm
      (pool.filter (fun p => isDue p now)
        ++ pool.filter (fun p => !isDue p now && isNewPhrase p)) :=
    (perm_sortRanked _).append_right _
  have hdue : (eligiblePhrases pool now).filter (fun p => isDue p now)
      = pool.filter (fun p => isDue p now) := by
    unfold eligiblePhrases
    rw [List.filter_filter]
    refine List.filter_congr fun x _ => ?_
    cases h : isDue x now <;> simp [h]
  have hnew : (eligiblePhrases pool now).filter (fun p => !isDue p now)
      = pool.filter (fun p => !isDue p now && isNewPhrase p) := by
    unfold eligiblePhrases
    rw [List.filter_filter]
    refine List.filter_congr fun x _ => ?_
    cases h : isDue x now <;> cases hn : isNewPhrase x <;> simp [h, hn]
  have h2 := List.filter_append_perm (fun p => isDue p now)
    (eligiblePhrases pool now)
  rw [hdue, hnew] at h2
  exact h1.trans h2

/-- Distinctness of ids carries from the pool to the candidate order. -/
theorem pairwise_candidatePhrases (pool : List Phrase) (now : Int)
    (h : pool.Pairwise fun a b => a.id ≠ b.id) :
    (candidatePhrases pool now).Pairwise fun a b => a.id ≠ b.id := by
  have he : (eligiblePhrases pool now).Pairwise fun a b => a.id ≠ b.id :=
    List.Pairwise.sublist (List.filter_sublist pool) h
  exact ((perm_candidatePhrases pool now).pairwise_iff
    fun hxy h2 => hxy h2.symm).mpr he

/-- C6: on a pool of distinct ids with at least two eligible (due or new)
items, the selector always returns an item, and never the one shown last. -/
theorem selectNext_no_immediate_repeat (pool : List Phrase) (lastId : String)
    (now : Int) (hids : pool.Pairwise fun a b => a.id ≠ b.id)
    (h2 : 2 ≤ (eligiblePhrases pool now).length) :
    ∃ r, selectNextPhrase pool (some lastId) now = some r ∧ r.id ≠ lastId := by
  have hlen : 2 ≤ (candidatePhrases pool now).length := by
    rw [(perm_candidatePhrases pool now).length_eq]
    exact h2
  rcases hc : candidatePhrases pool now with _ | ⟨c, _ | ⟨d, t⟩⟩
  · rw [hc] at hlen
    simp at hlen
  · rw [hc] at hlen
    simp at hlen
  · have hpw := pairwise_candidatePhrases pool now hids
    rw [hc] at hpw
    have hcd : c.id ≠ d.id :=
      (List.pairwise_cons.mp hpw).1 d (List.mem_cons_self d t)
    unfold selectNextPhrase
    rw [hc]
    show ∃ r,
      (if some lastId = some c.id ∧ (d :: t) ≠ [] then (d :: t).head? else some c)
        = some r ∧ r.id ≠ lastId
    by_cases h : lastId = c.id
    · rw [if_pos ⟨by rw [h], by simp⟩]
      exact ⟨d, rfl, fun hd => hcd (h ▸ hd ▸ rfl)⟩
    · rw [if_neg fun hand => h (Option.some.inj hand.1)]
      exact ⟨c, rfl, fun hcq => h hcq.symm⟩

/-- Two due phrases with distinct schedules, for the C6 witness. -/
def duePhraseA : Phrase :=
  { samplePhrase with id := "a", nextReviewAt := 100 }

/-- Second due phrase for the C6 witness. -/
def duePhraseB : Phrase :=
  { samplePhrase with id := "b", nextReviewAt := 50 }

/-- Witness for C6: with the two due phrases both eligible and the
most-overdue one just shown, the selector picks the other. -/
theorem selectNext_no_immediate_repeat_witness :
    ([duePhraseA, duePhraseB].Pairwise fun a b => a.id ≠ b.id) ∧
    2 ≤ (eligiblePhrases [duePhraseA, duePhraseB] 1000).length ∧
    ∃ r, selectNextPhrase [duePhraseA, duePhraseB] (some "b") 1000 = some r ∧
      r.id ≠ "b" :=
  ⟨by simp [duePhraseA, duePhraseB, samplePhrase],
   by decide,
   selectNext_no_immediate_repeat [duePhraseA, duePhraseB] "b" 1000
     (by simp [duePhraseA, duePhraseB, samplePhrase]) (by decide)⟩

end Lingogo
